import Mathlib

/-!
Verification of the Helios repository (a CLI that reconciles installed
Steam/Epic games with the Apollo/Sunshine streaming-host catalog).

The Python sources are shallowly embedded: JSON records become association
lists of string keys to scalar values, Python dict updates become ordered
association-list updates with dict semantics (assignment to an existing key
keeps its position, a new key is appended), filesystem and registry facts
that the code only queries (existence, absoluteness of a path, registry
contents) are passed in as explicit oracle data, and machine integers are
Nat/Int with explicit masking where the code masks.

Sources embedded here:
  src/helios.py               (orchestrator: cache, covers, add results, sort)
  src/apollo/apollo.py        (legacy Apollo catalog model and install scan)
  src/environment/environment.py (generic catalog model)
  src/epic/epic.py            (Epic manifests)
  src/steam/steam.py          (non-Steam shortcut ids)
-/

namespace Helios

/-- Scalar JSON values as they occur in the app records the claims touch:
strings and booleans. -/
inductive JVal where
  | str : String → JVal
  | bool : Bool → JVal
deriving DecidableEq, Repr

/-- A JSON object / Python dict with scalar values, as an ordered
association list (Python dicts preserve insertion order). -/
abbrev Record := List (String × JVal)

/-- Python d.get(k): first binding of the key, if any. -/
def lookupA {α : Type} (l : List (String × α)) (k : String) : Option α :=
  (l.find? (fun p => p.1 == k)).map (·.2)

/-- Keys of an association list, in order. -/
def keysOf {α : Type} (l : List (String × α)) : List String :=
  l.map Prod.fst

/-- Python dict assignment d[k] = v: replace in place when the key exists,
else append at the end. -/
def dictInsert {α : Type} (l : List (String × α)) (k : String) (v : α) :
    List (String × α) :=
  if l.any (fun p => p.1 == k) then
    l.map (fun p => if p.1 == k then (k, v) else p)
  else
    l ++ [(k, v)]

/-- app.get(k) on an embedded record. -/
def getField (r : Record) (k : String) : Option JVal :=
  lookupA r k

/-- Python str.lower() for the ASCII strings the tool handles, written on
the character list so it evaluates by rfl. -/
def pyLower (s : String) : String :=
  String.mk (s.toList.map Char.toLower)

/-- Python str.strip(): drop leading and trailing whitespace. -/
def pyTrim (s : String) : String :=
  String.mk
    (((s.toList.dropWhile Char.isWhitespace).reverse.dropWhile
      Char.isWhitespace).reverse)

theorem lookupA_nil {α : Type} (k : String) : lookupA ([] : List (String × α)) k = none := rfl

theorem lookupA_cons {α : Type} (p : String × α) (l : List (String × α)) (k : String) :
    lookupA (p :: l) k = if p.1 = k then some p.2 else lookupA l k := by
  simp only [lookupA, List.find?_cons]
  by_cases h : p.1 = k
  · simp [h]
  · simp [h, beq_eq_false_iff_ne.2 h]

theorem lookupA_isSome_iff_mem_keys {α : Type} (l : List (String × α)) (k : String) :
    (lookupA l k).isSome ↔ k ∈ keysOf l := by
  induction l with
  | nil => simp [lookupA, keysOf]
  | cons p t ih =>
    rw [lookupA_cons]
    by_cases h : p.1 = k
    · simp [h, keysOf]
    · simp only [h, if_false, keysOf, List.map_cons, List.mem_cons]
      rw [ih]
      simp [keysOf, Ne.symm h]

theorem lookupA_append {α : Type} (l₁ l₂ : List (String × α)) (k : String) :
    lookupA (l₁ ++ l₂) k = ((lookupA l₁ k).orElse (fun _ => lookupA l₂ k)) := by
  induction l₁ with
  | nil => simp [lookupA]
  | cons p t ih =>
    rw [List.cons_append, lookupA_cons, lookupA_cons]
    by_cases h : p.1 = k <;> simp [h, ih]

/-- Looking a key up after a Python dict assignment sees the new value for
that key and is untouched for every other key. -/
theorem lookupA_dictInsert {α : Type} (l : List (String × α)) (k : String) (v : α)
    (x : String) :
    lookupA (dictInsert l k v) x = if x = k then some v else lookupA l x := by
  unfold dictInsert
  by_cases hmem : l.any (fun p => p.1 == k)
  · simp only [hmem, if_true]
    induction l with
    | nil => simp at hmem
    | cons p t ih =>
      simp only [List.any_cons, Bool.or_eq_true, beq_iff_eq] at hmem
      by_cases hp : p.1 = k
      · by_cases hx : x = k
        · subst hx hp
          simp [lookupA_cons]
        · simp only [List.map_cons, hp, beq_self_eq_true, if_true]
          rw [lookupA_cons, lookupA_cons]
          simp only [hx, if_false]
          by_cases ht : t.any (fun p => p.1 == k)
          · rw [ih ht]
            simp [hx, Ne.symm hx, hp]
          · -- key occurs only at the head; the tail map is inert for x
            have : lookupA (t.map (fun p => if p.1 == k then (k, v) else p)) x
                = lookupA t x := by
              clear ih hmem
              induction t with
              | nil => rfl
              | cons q u ihu =>
                simp only [List.any_cons, Bool.or_eq_true, beq_iff_eq,
                  not_or] at ht
                simp only [List.map_cons]
                rw [lookupA_cons, lookupA_cons]
                by_cases hq : q.1 = k
                · exact absurd hq ht.1
                · simp only [beq_eq_false_iff_ne.2 hq, Bool.false_eq_true,
                    if_false, ihu ht.2]
            rw [this]
            simp [hx, Ne.symm hx, hp]
      · rcases hmem with hmem | hmem
        · exact absurd hmem hp
        · simp only [List.map_cons, beq_eq_false_iff_ne.2 hp,
            Bool.false_eq_true, if_false]
          rw [lookupA_cons, lookupA_cons, ih hmem]
          by_cases hx : x = k
          · subst hx
            simp [hp]
          · simp [hx]
  · rw [Bool.not_eq_true] at hmem
    simp only [hmem, Bool.false_eq_true, if_false]
    rw [lookupA_append]
    have hnone : lookupA l k = none := by
      cases hlk : lookupA l k with
      | none => rfl
      | some a =>
        exfalso
        have hsome : (lookupA l k).isSome := by rw [hlk]; rfl
        rw [lookupA_isSome_iff_mem_keys] at hsome
        rcases List.mem_map.1 hsome with ⟨p, hpmem, hpk⟩
        have hany : l.any (fun p => p.1 == k) = true :=
          List.any_eq_true.2 ⟨p, hpmem, beq_iff_eq.2 hpk⟩
        rw [hmem] at hany
        exact Bool.false_ne_true hany
    by_cases hx : x = k
    · subst hx
      rw [hnone]
      simp [lookupA_cons]
    · cases hlx : lookupA l x with
      | none => simp [hlx, lookupA_cons, Ne.symm hx, hx, lookupA_nil]
      | some a => simp [hlx, hx]

/-!
## Steam non-Steam shortcut id conversion (src/steam/steam.py, lines 171-172)

    def convert_nonsteam_id(appID32: int) -> int:
        return ((appID32 & 0xFFFFFFFF) << 32) | 0x02000000
-/

/-- Embedding of convert_nonsteam_id from src/steam/steam.py. -/
def convert_nonsteam_id (appID32 : Nat) : Nat :=
  ((appID32 &&& 0xFFFFFFFF) <<< 32) ||| 0x02000000

theorem convert_nonsteam_id_eq (x : Nat) (hx : x < 2 ^ 32) :
    convert_nonsteam_id x = 2 ^ 32 * x + 0x02000000 := by
  unfold convert_nonsteam_id
  have hmask : x &&& 0xFFFFFFFF = x := by
    have : (0xFFFFFFFF : Nat) = 2 ^ 32 - 1 := by norm_num
    rw [this, Nat.and_pow_two_sub_one_eq_mod, Nat.mod_eq_of_lt hx]
  rw [hmask, Nat.shiftLeft_eq, Nat.mul_comm]
  exact (Nat.mul_add_lt_is_or (by norm_num) x).symm

/-- Claim C3: for every 32-bit unsigned integer x, the non-Steam shortcut id
conversion satisfies (convert(x) >> 32) == x and
convert(x) & 0xFFFFFFFF == 0x02000000. -/
theorem convert_nonsteam_id_roundtrip (x : Nat) (hx : x < 2 ^ 32) :
    convert_nonsteam_id x >>> 32 = x ∧
    convert_nonsteam_id x &&& 0xFFFFFFFF = 0x02000000 := by
  rw [convert_nonsteam_id_eq x hx]
  constructor
  · rw [Nat.shiftRight_eq_div_pow]
    omega
  · have : (0xFFFFFFFF : Nat) = 2 ^ 32 - 1 := by norm_num
    rw [this, Nat.and_pow_two_sub_one_eq_mod]
    omega

/-- Concrete instance of the C3 theorem at x = 3735928559. -/
theorem convert_nonsteam_id_roundtrip_witness :
    convert_nonsteam_id 3735928559 >>> 32 = 3735928559 ∧
    convert_nonsteam_id 3735928559 &&& 0xFFFFFFFF = 0x02000000 :=
  convert_nonsteam_id_roundtrip 3735928559 (by norm_num)

/-!
## Epic discovery subsystem (src/epic/epic.py)

An EpicItem wraps one parsed .item manifest (a JSON object). Only the
fields the item predicates read are embedded; bIsIncompleteInstall is a
JSON boolean or absent, AppCategories a list of strings (absent defaults
to the empty list, matching data.get("AppCategories", [])).
-/

/-- The slice of a parsed Epic .item manifest read by is_game, is_installed
and item_type (src/epic/epic.py, EpicItem). -/
structure EpicManifest where
  appCategories : List String
  bIsIncompleteInstall : Option Bool
  technicalType : String
deriving DecidableEq, Repr

/-- EpicItem.is_game: the category list contains "games". -/
def EpicManifest.is_game (m : EpicManifest) : Bool :=
  m.appCategories.contains "games"

/-- EpicItem.is_installed: not data.get("bIsIncompleteInstall", True) —
absent flag defaults to True, so absent means not installed. -/
def EpicManifest.is_installed (m : EpicManifest) : Bool :=
  !(m.bIsIncompleteInstall.getD true)

/-- EpicLibrary.games(): items that are both a game and installed
(src/epic/epic.py, lines 148-152), over the already-loaded items. -/
def epicGames (items : List EpicManifest) : List EpicManifest :=
  items.filter (fun item => item.is_game && item.is_installed)

/-- Claim C7: an Epic item whose manifest lacks the bIsIncompleteInstall
flag is treated as not installed and excluded from games(); an item with
the flag explicitly false and category list containing "games" is
included. -/
theorem epicGames_installed_filter (items : List EpicManifest) (m : EpicManifest)
    (hm : m ∈ items) :
    (m.bIsIncompleteInstall = none → m ∉ epicGames items) ∧
    (m.bIsIncompleteInstall = some false → "games" ∈ m.appCategories →
      m ∈ epicGames items) := by
  constructor
  · intro habs hmem
    rcases List.mem_filter.1 hmem with ⟨-, hpred⟩
    rw [Bool.and_eq_true] at hpred
    have : m.is_installed = false := by
      simp [EpicManifest.is_installed, habs]
    rw [this] at hpred
    exact Bool.false_ne_true hpred.2
  · intro hflag hcat
    apply List.mem_filter.2
    refine ⟨hm, ?_⟩
    rw [Bool.and_eq_true]
    constructor
    · simp [EpicManifest.is_game]
      exact hcat
    · simp [EpicManifest.is_installed, hflag]

/-- Concrete instance of the C7 theorem: an item without the flag is
excluded, an explicitly complete game is included. -/
theorem epicGames_installed_filter_witness :
    (⟨["games"], none, "game"⟩ : EpicManifest) ∉
      epicGames [⟨["games"], none, "game"⟩, ⟨["games"], some false, "game"⟩] ∧
    (⟨["games"], some false, "game"⟩ : EpicManifest) ∈
      epicGames [⟨["games"], none, "game"⟩, ⟨["games"], some false, "game"⟩] :=
  ⟨(epicGames_installed_filter _ _ (by decide)).1 rfl,
   (epicGames_installed_filter _ _ (by decide)).2 rfl (by decide)⟩

/-!
## Non-Steam shortcut id derivation
(src/steam/steam.py, SteamAppLibrary.get_nonsteam_apps, lines 177-193)

Each shortcuts.vdf entry carries AppName (default "Unknown Shortcut") and a
raw appid that is an int, bytes, or something else; in the last case the
32-bit id is hash(name) & 0xFFFFFFFF packed little-endian and unpacked as
an unsigned 32-bit integer. Python builtin hash is modeled as an explicit
function argument (it is fixed for the lifetime of one interpreter
process); Python int & 0xFFFFFFFF on a possibly negative int is emod 2^32.
-/

/-- The raw appid field of a shortcut entry: a 4-byte-packable int, raw
bytes, or a value of any other type. -/
inductive RawAppId where
  | int : Int → RawAppId
  | bytes : List Nat → RawAppId
  | other : RawAppId
deriving DecidableEq, Repr

/-- The slice of one shortcuts.vdf entry read by get_nonsteam_apps;
otherData stands for all remaining entry fields, which the derivation must
not depend on. -/
structure ShortcutEntry where
  appName : Option String
  appid : Option RawAppId
  otherData : List (String × String)
deriving DecidableEq, Repr

/-- entry.get("AppName", "Unknown Shortcut"). -/
def ShortcutEntry.name (e : ShortcutEntry) : String :=
  e.appName.getD "Unknown Shortcut"

/-- Little-endian 4-byte encoding of a value already reduced below 2^32. -/
def toLE4 (n : Nat) : List Nat :=
  [n % 256, n / 256 % 256, n / 2 ^ 16 % 256, n / 2 ^ 24 % 256]

/-- struct.unpack("<I", bytes)[0]: little-endian unsigned 32-bit decode. -/
def unpackLE4 (bs : List Nat) : Nat :=
  match bs with
  | [b0, b1, b2, b3] => b0 + b1 * 256 + b2 * 2 ^ 16 + b3 * 2 ^ 24
  | _ => 0

/-- The raw 4 little-endian bytes the code builds for an entry: int ids are
packed signed little-endian (two's complement, i.e. mod 2^32), byte ids are
truncated/right-padded to 4 bytes, and anything else falls back to
hash(name) & 0xFFFFFFFF. -/
def shortcutRawBytes (pyHash : String → Int) (e : ShortcutEntry) : List Nat :=
  match e.appid.getD (RawAppId.int 0) with
  | RawAppId.int i => toLE4 (i.emod (2 ^ 32)).toNat
  | RawAppId.bytes bs =>
      (bs.take 4) ++ List.replicate (4 - (bs.take 4).length) 0
  | RawAppId.other => toLE4 ((pyHash e.name).emod (2 ^ 32)).toNat

/-- The 32-bit shortcut id: struct.unpack("<I", raw_bytes)[0]. -/
def shortcutId32 (pyHash : String → Int) (e : ShortcutEntry) : Nat :=
  unpackLE4 (shortcutRawBytes pyHash e)

/-- The synthesized 64-bit non-Steam appID. -/
def shortcutAppID64 (pyHash : String → Int) (e : ShortcutEntry) : Nat :=
  convert_nonsteam_id (shortcutId32 pyHash e)

/-- The composite string fed to uuid5(NAMESPACE_OID, ...) for the entry:
f-string "{appID64}|{name}". uuid5 itself is the external uuid library, a
pure function of this string, so equal inputs give equal uuids. -/
def shortcutUuidInput (pyHash : String → Int) (e : ShortcutEntry) : String :=
  toString (shortcutAppID64 pyHash e) ++ "|" ++ e.name

/-- Claim C8: for entries whose raw appid is neither an int nor bytes, the
fallback id depends only on the name (with the process hash function
fixed): two entries with the same name get the same 32-bit id, hence the
same 64-bit appID and the same uuid5 input string. -/
theorem shortcut_fallback_deterministic (pyHash : String → Int)
    (e₁ e₂ : ShortcutEntry)
    (h₁ : e₁.appid = some RawAppId.other) (h₂ : e₂.appid = some RawAppId.other)
    (hname : e₁.name = e₂.name) :
    shortcutId32 pyHash e₁ = shortcutId32 pyHash e₂ ∧
    shortcutAppID64 pyHash e₁ = shortcutAppID64 pyHash e₂ ∧
    shortcutUuidInput pyHash e₁ = shortcutUuidInput pyHash e₂ := by
  have hid : shortcutId32 pyHash e₁ = shortcutId32 pyHash e₂ := by
    unfold shortcutId32 shortcutRawBytes
    rw [h₁, h₂, hname]
  refine ⟨hid, ?_, ?_⟩
  · unfold shortcutAppID64
    rw [hid]
  · unfold shortcutUuidInput shortcutAppID64
    rw [hid, hname]

/-- Concrete instance of the C8 theorem: two entries agreeing only on the
name derive the same id, appID and uuid input. -/
theorem shortcut_fallback_deterministic_witness :
    shortcutId32 (fun s => (s.length : Int))
        ⟨some "Doom", some RawAppId.other, [("Exe", "doom.exe")]⟩ =
      shortcutId32 (fun s => (s.length : Int))
        ⟨some "Doom", some RawAppId.other, [("Exe", "other.exe")]⟩ ∧
    shortcutAppID64 (fun s => (s.length : Int))
        ⟨some "Doom", some RawAppId.other, [("Exe", "doom.exe")]⟩ =
      shortcutAppID64 (fun s => (s.length : Int))
        ⟨some "Doom", some RawAppId.other, [("Exe", "other.exe")]⟩ ∧
    shortcutUuidInput (fun s => (s.length : Int))
        ⟨some "Doom", some RawAppId.other, [("Exe", "doom.exe")]⟩ =
      shortcutUuidInput (fun s => (s.length : Int))
        ⟨some "Doom", some RawAppId.other, [("Exe", "other.exe")]⟩ :=
  shortcut_fallback_deterministic (fun s => (s.length : Int)) _ _ rfl rfl rfl

/-!
## Catalog models (src/environment/environment.py and src/apollo/apollo.py)

Both classes keep the parsed apps list plus a uuid lookup built as
\x7bapp["uuid"]: app for app in apps if "uuid" in app\x7d (later duplicates
overwrite earlier ones). Only string uuid values are modeled as lookup
keys: every writer in the repository stores uuids as strings, and a
non-string key could never be returned for a string uuid query nor match
the string comparison in the removal filter, so string-keyed queries are
unaffected. The data dict that mirrors apps is not modeled separately.
-/

/-- In-memory state of EnvironmentAppsJSON / ApolloAppsJSON: the apps list
and the by_uuid lookup. -/
structure CatalogState where
  apps : List Record
  by_uuid : List (String × Record)
deriving Repr

/-- One step of the by_uuid dict comprehension: insert the app under its
uuid field when present. -/
def buildStep (d : List (String × Record)) (app : Record) :
    List (String × Record) :=
  match getField app "uuid" with
  | some (JVal.str u) => dictInsert d u app
  | _ => d

/-- The by_uuid comprehension over the whole apps list. -/
def buildByUuid (apps : List Record) : List (String × Record) :=
  apps.foldl buildStep []

/-- Construction of either catalog model from a parsed apps list
(EnvironmentAppsJSON.__init__ lines 27-31, ApolloAppsJSON.__init__). -/
def catalogInit (apps : List Record) : CatalogState :=
  ⟨apps, buildByUuid apps⟩

/-- Python dict.pop(k, default): drop the binding of k. -/
def dictPop {α : Type} (l : List (String × α)) (k : String) :
    List (String × α) :=
  l.filter (fun p => !(p.1 == k))

/-- EnvironmentAppsJSON.remove_app_by_uuid (lines 64-71): bail out when the
uuid is not in by_uuid, else drop every apps entry whose uuid field equals
it and pop the lookup binding. -/
def env_remove (s : CatalogState) (u : String) : CatalogState × Bool :=
  if (lookupA s.by_uuid u).isSome then
    (⟨s.apps.filter (fun a => !(getField a "uuid" == some (JVal.str u))),
      dictPop s.by_uuid u⟩, true)
  else
    (s, false)

/-- ApolloAppsJSON.remove_app_by_uuid (lines 70-80): pop first, and return
False when the popped value is falsy (absent, or an empty dict — the
latter can never be stored under a uuid key); else filter the apps list. -/
def apollo_remove (s : CatalogState) (u : String) : CatalogState × Bool :=
  match lookupA s.by_uuid u with
  | none => (s, false)
  | some app =>
    if app.isEmpty then
      (⟨s.apps, dictPop s.by_uuid u⟩, false)
    else
      (⟨s.apps.filter (fun a => !(getField a "uuid" == some (JVal.str u))),
        dictPop s.by_uuid u⟩, true)

/-- Run a sequence of remove-by-uuid operations from a freshly constructed
model. -/
def runRemovalsWith (step : CatalogState → String → CatalogState × Bool)
    (apps0 : List Record) (removals : List String) : CatalogState :=
  removals.foldl (fun s u => (step s u).1) (catalogInit apps0)

theorem lookupA_dictPop {α : Type} (l : List (String × α)) (k x : String) :
    lookupA (dictPop l k) x = if x = k then none else lookupA l x := by
  induction l with
  | nil => simp [dictPop, lookupA]
  | cons p t ih =>
    simp only [dictPop, List.filter_cons] at ih ⊢
    by_cases hp : p.1 = k
    · simp only [hp, beq_self_eq_true, Bool.not_true, Bool.false_eq_true,
        if_false, ih]
      by_cases hx : x = k
      · simp [hx]
      · rw [if_neg hx, if_neg hx, lookupA_cons,
          if_neg (fun h : p.1 = x => hx (h.symm.trans hp))]
    · simp only [beq_eq_false_iff_ne.2 hp, Bool.not_false, if_true]
      rw [lookupA_cons, lookupA_cons, ih]
      by_cases hpx : p.1 = x
      · have : ¬x = k := fun h => hp (hpx.trans h)
        simp [hpx, this]
      · simp [hpx]

theorem lookupA_buildByUuid_aux (apps : List Record) (u : String)
    (d : List (String × Record)) :
    lookupA (apps.foldl buildStep d) u =
      match apps.reverse.find?
          (fun a => getField a "uuid" == some (JVal.str u)) with
      | some a => some a
      | none => lookupA d u := by
  induction apps generalizing d with
  | nil => simp
  | cons a t ih =>
    rw [List.foldl_cons, ih, List.reverse_cons, List.find?_append]
    cases hf : t.reverse.find? (fun a => getField a "uuid" == some (JVal.str u)) with
    | some b => simp [hf]
    | none =>
      simp only [hf, Option.none_orElse]
      unfold buildStep
      cases hg : getField a "uuid" with
      | none => simp [List.find?, hg]
      | some v =>
        cases v with
        | str u' =>
          by_cases hu : u' = u
          · subst hu
            simp [List.find?, hg, lookupA_dictInsert]
          · simp only [List.find?, hg]
            have : ((some (JVal.str u') == some (JVal.str u)) : Bool) = false := by
              simp [hu]
            simp [this, lookupA_dictInsert, Ne.symm hu, hu]
        | bool b =>
          have hb : ((JVal.bool b == JVal.str u) : Bool) = false := by
            rw [beq_eq_false_iff_ne]
            exact fun h => JVal.noConfusion h
          simp [List.find?, hg, hb]

theorem lookupA_buildByUuid (apps : List Record) (u : String) :
    lookupA (buildByUuid apps) u =
      apps.reverse.find? (fun a => getField a "uuid" == some (JVal.str u)) := by
  rw [buildByUuid, lookupA_buildByUuid_aux]
  cases apps.reverse.find? (fun a => getField a "uuid" == some (JVal.str u)) <;>
    simp [lookupA]

/-- The invariant tying by_uuid to the apps list: every binding points at
an apps entry carrying exactly that uuid, and every uuid carried by some
apps entry is bound. -/
def goodState (s : CatalogState) : Prop :=
  (∀ u r, lookupA s.by_uuid u = some r →
    getField r "uuid" = some (JVal.str u) ∧ r ∈ s.apps) ∧
  (∀ u, (∃ a ∈ s.apps, getField a "uuid" = some (JVal.str u)) →
    (lookupA s.by_uuid u).isSome)

theorem goodState_init (apps : List Record) : goodState (catalogInit apps) := by
  constructor
  · intro u r hlook
    rw [catalogInit] at hlook
    simp only at hlook
    rw [lookupA_buildByUuid] at hlook
    have hpred := List.find?_some hlook
    have hmem := List.mem_of_find?_eq_some hlook
    rw [beq_iff_eq] at hpred
    exact ⟨hpred, by simpa using List.mem_reverse.1 hmem⟩
  · intro u ⟨a, hmem, hfield⟩
    rw [catalogInit]
    simp only
    rw [lookupA_buildByUuid, List.find?_isSome]
    exact ⟨a, List.mem_reverse.2 hmem, beq_iff_eq.2 hfield⟩

theorem goodState_filtered (s : CatalogState) (u : String) (hs : goodState s) :
    goodState ⟨s.apps.filter (fun a => !(getField a "uuid" == some (JVal.str u))),
      dictPop s.by_uuid u⟩ := by
  obtain ⟨h1, h2⟩ := hs
  constructor
  · intro u' r hlook
    simp only at hlook ⊢
    rw [lookupA_dictPop] at hlook
    by_cases hu : u' = u
    · simp [hu] at hlook
    · rw [if_neg hu] at hlook
      obtain ⟨hfield, hmem⟩ := h1 u' r hlook
      refine ⟨hfield, List.mem_filter.2 ⟨hmem, ?_⟩⟩
      rw [hfield]
      simp [hu]
  · intro u' ⟨a, hmem, hfield⟩
    simp only at hmem ⊢
    rw [lookupA_dictPop]
    rcases List.mem_filter.1 hmem with ⟨hmemo, hpred⟩
    have hu : u' ≠ u := by
      intro h
      subst h
      rw [hfield] at hpred
      simp at hpred
    rw [if_neg hu]
    exact h2 u' ⟨a, hmemo, hfield⟩

theorem goodState_env_remove (s : CatalogState) (u : String) (hs : goodState s) :
    goodState (env_remove s u).1 := by
  unfold env_remove
  by_cases h : (lookupA s.by_uuid u).isSome
  · simpa [h] using goodState_filtered s u hs
  · simpa [h] using hs

theorem goodState_apollo_remove (s : CatalogState) (u : String) (hs : goodState s) :
    goodState (apollo_remove s u).1 := by
  unfold apollo_remove
  cases hl : lookupA s.by_uuid u with
  | none => exact hs
  | some app =>
    have hfield := (hs.1 u app hl).1
    have hne : ¬app.isEmpty := by
      intro hemp
      rw [List.isEmpty_iff] at hemp
      subst hemp
      simp [getField, lookupA] at hfield
    simp only [hne, Bool.false_eq_true, if_false]
    exact goodState_filtered s u hs

theorem goodState_foldl (step : CatalogState → String → CatalogState × Bool)
    (hstep : ∀ s u, goodState s → goodState (step s u).1)
    (s : CatalogState) (removals : List String) (hs : goodState s) :
    goodState (removals.foldl (fun s u => (step s u).1) s) := by
  induction removals generalizing s with
  | nil => exact hs
  | cons r t ih =>
    rw [List.foldl_cons]
    exact ih _ (hstep s r hs)

theorem goodState_run (step : CatalogState → String → CatalogState × Bool)
    (hstep : ∀ s u, goodState s → goodState (step s u).1)
    (apps0 : List Record) (removals : List String) :
    goodState (runRemovalsWith step apps0 removals) :=
  goodState_foldl step hstep (catalogInit apps0) removals (goodState_init apps0)

theorem goodState_iff (s : CatalogState) (hs : goodState s) (u : String) :
    (lookupA s.by_uuid u).isSome ↔
      ∃ a ∈ s.apps, getField a "uuid" = some (JVal.str u) := by
  constructor
  · intro h
    rw [Option.isSome_iff_exists] at h
    obtain ⟨r, hr⟩ := h
    obtain ⟨hfield, hmem⟩ := hs.1 u r hr
    exact ⟨r, hmem, hfield⟩
  · exact hs.2 u

theorem remove_clears_env (s : CatalogState) (hs : goodState s) (u : String) :
    ∀ a ∈ (env_remove s u).1.apps, getField a "uuid" ≠ some (JVal.str u) := by
  intro a hmem hfield
  unfold env_remove at hmem
  by_cases h : (lookupA s.by_uuid u).isSome
  · simp only [h, if_true] at hmem
    rcases List.mem_filter.1 hmem with ⟨-, hpred⟩
    rw [hfield] at hpred
    simp at hpred
  · simp only [h, Bool.false_eq_true, if_false] at hmem
    exact h ((goodState_iff s hs u).2 ⟨a, hmem, hfield⟩)

theorem remove_clears_apollo (s : CatalogState) (hs : goodState s) (u : String) :
    ∀ a ∈ (apollo_remove s u).1.apps, getField a "uuid" ≠ some (JVal.str u) := by
  intro a hmem hfield
  unfold apollo_remove at hmem
  cases hl : lookupA s.by_uuid u with
  | none =>
    rw [hl] at hmem
    have hsome : (lookupA s.by_uuid u).isSome :=
      (goodState_iff s hs u).2 ⟨a, hmem, hfield⟩
    rw [hl] at hsome
    exact Bool.false_ne_true hsome
  | some app =>
    rw [hl] at hmem
    have hne : ¬app.isEmpty := by
      intro hemp
      rw [List.isEmpty_iff] at hemp
      subst hemp
      have := (hs.1 u [] hl).1
      simp [getField, lookupA] at this
    simp only [hne, Bool.false_eq_true, if_false] at hmem
    rcases List.mem_filter.1 hmem with ⟨-, hpred⟩
    rw [hfield] at hpred
    simp at hpred

/-- Claim C9: for both catalog models, after construction and after any
sequence of remove-by-uuid operations, the uuid lookup answers exactly the
uuids carried by entries in the apps list, and a removal deletes every
list entry carrying that uuid (duplicates included). -/
theorem catalog_uuid_lookup_consistency (apps0 : List Record)
    (removals : List String) (u : String) :
    ((lookupA (runRemovalsWith env_remove apps0 removals).by_uuid u).isSome ↔
      ∃ a ∈ (runRemovalsWith env_remove apps0 removals).apps,
        getField a "uuid" = some (JVal.str u)) ∧
    (∀ a ∈ (env_remove (runRemovalsWith env_remove apps0 removals) u).1.apps,
      getField a "uuid" ≠ some (JVal.str u)) ∧
    ((lookupA (runRemovalsWith apollo_remove apps0 removals).by_uuid u).isSome ↔
      ∃ a ∈ (runRemovalsWith apollo_remove apps0 removals).apps,
        getField a "uuid" = some (JVal.str u)) ∧
    (∀ a ∈ (apollo_remove (runRemovalsWith apollo_remove apps0 removals) u).1.apps,
      getField a "uuid" ≠ some (JVal.str u)) := by
  have hE := goodState_run env_remove goodState_env_remove apps0 removals
  have hA := goodState_run apollo_remove goodState_apollo_remove apps0 removals
  exact ⟨goodState_iff _ hE u, remove_clears_env _ hE u,
    goodState_iff _ hA u, remove_clears_apollo _ hA u⟩

/-- Concrete instance of the C9 theorem: a catalog with a duplicated uuid,
one removal performed, queried for the removed uuid. -/
theorem catalog_uuid_lookup_consistency_witness :
    ((lookupA (runRemovalsWith env_remove
        [[("uuid", JVal.str "A"), ("name", JVal.str "x")],
         [("uuid", JVal.str "A"), ("name", JVal.str "y")],
         [("uuid", JVal.str "B")]] ["A"]).by_uuid "A").isSome ↔
      ∃ a ∈ (runRemovalsWith env_remove
        [[("uuid", JVal.str "A"), ("name", JVal.str "x")],
         [("uuid", JVal.str "A"), ("name", JVal.str "y")],
         [("uuid", JVal.str "B")]] ["A"]).apps,
        getField a "uuid" = some (JVal.str "A")) :=
  (catalog_uuid_lookup_consistency
    [[("uuid", JVal.str "A"), ("name", JVal.str "x")],
     [("uuid", JVal.str "A"), ("name", JVal.str "y")],
     [("uuid", JVal.str "B")]] ["A"] "A").1

/-!
## Helios cache refresh (src/helios.py, update_helios_cache, lines 362-411)

The cache file is a flat JSON object uuid -> record, embedded as an
ordered association list. A refresh selects the apps to include, prunes
(clears everything for "all", else removes entries of the selected
source), then merges each included app over whatever the pruned cache
still holds for its uuid, via the Python dict merge \x7b**old, **new\x7d.
-/

/-- Python dict merge \x7b**old, **new\x7d: keys of old keep their order with
values overridden by new, then the keys only in new follow in their
order. -/
def mergeRecords (old new : Record) : Record :=
  old.map (fun p =>
    match lookupA new p.1 with
    | some v => (p.1, v)
    | none => p) ++
  new.filter (fun p => !(old.any (fun q => q.1 == p.1)))

/-- The apps_to_include dispatch on the selection (lines 386-393). -/
def appsToInclude (libraries : List (String × Record)) (selection : String) :
    List (String × Record) :=
  if selection = "steam" then
    libraries.filter (fun p => getField p.2 "source" == some (JVal.str "steam"))
  else if selection = "nonsteam" then
    libraries.filter (fun p => getField p.2 "source" == some (JVal.str "nonsteam"))
  else if selection = "epic" then
    libraries.filter (fun p => getField p.2 "source" == some (JVal.str "epic"))
  else
    libraries

/-- One iteration of the merge loop (lines 405-407): re-insert the uuid
with the discovered record shallow-merged over the old cached metadata. -/
def cacheMergeStep (cache : List (String × Record)) (p : String × Record) :
    List (String × Record) :=
  dictInsert cache p.1 (mergeRecords ((lookupA cache p.1).getD []) p.2)

/-- update_helios_cache on the in-memory cache content: prune, then merge
every included app in order. -/
def update_helios_cache (cache libraries : List (String × Record))
    (selection : String) : List (String × Record) :=
  let apps_to_include := appsToInclude libraries selection
  let pruned :=
    if selection = "all" then []
    else cache.filter
      (fun p => !(getField p.2 "source" == some (JVal.str selection)))
  apps_to_include.foldl cacheMergeStep pruned

theorem lookupA_eq_none_iff {α : Type} (l : List (String × α)) (k : String) :
    lookupA l k = none ↔ k ∉ keysOf l := by
  rw [← lookupA_isSome_iff_mem_keys]
  cases lookupA l k <;> simp

theorem keysOf_cons {α : Type} (p : String × α) (t : List (String × α)) :
    keysOf (p :: t) = p.1 :: keysOf t := rfl

theorem lookupA_filter {α : Type} (l : List (String × α))
    (pred : String × α → Bool) (hnd : (keysOf l).Nodup) (x : String) :
    lookupA (l.filter pred) x =
      match lookupA l x with
      | some v => if pred (x, v) then some v else none
      | none => none := by
  induction l with
  | nil => simp [lookupA]
  | cons p t ih =>
    rw [keysOf_cons, List.nodup_cons] at hnd
    rw [List.filter_cons]
    by_cases hpred : pred p
    · rw [if_pos hpred, lookupA_cons, lookupA_cons]
      by_cases hpx : p.1 = x
      · subst hpx
        simp [hpred]
      · simp only [hpx, if_false]
        exact ih hnd.2
    · simp only [hpred, Bool.false_eq_true, if_false]
      rw [ih hnd.2, lookupA_cons]
      by_cases hpx : p.1 = x
      · subst hpx
        have ht : lookupA t p.1 = none := (lookupA_eq_none_iff t p.1).2 hnd.1
        simp [ht, hpred]
      · simp [hpx]

theorem lookupA_cacheMergeStep (c : List (String × Record))
    (p : String × Record) (x : String) :
    lookupA (cacheMergeStep c p) x =
      if x = p.1 then some (mergeRecords ((lookupA c p.1).getD []) p.2)
      else lookupA c x := by
  unfold cacheMergeStep
  rw [lookupA_dictInsert]

theorem lookupA_foldl_cacheMergeStep (apps : List (String × Record))
    (init : List (String × Record)) (hnd : (keysOf apps).Nodup) (x : String) :
    lookupA (apps.foldl cacheMergeStep init) x =
      match lookupA apps x with
      | some r => some (mergeRecords ((lookupA init x).getD []) r)
      | none => lookupA init x := by
  induction apps generalizing init with
  | nil => simp [lookupA]
  | cons p t ih =>
    rw [keysOf_cons, List.nodup_cons] at hnd
    rw [List.foldl_cons, ih (cacheMergeStep init p) hnd.2, lookupA_cons]
    by_cases hpx : p.1 = x
    · subst hpx
      have ht : lookupA t p.1 = none := (lookupA_eq_none_iff t p.1).2 hnd.1
      simp only [ht, if_pos rfl]
      rw [lookupA_cacheMergeStep]
      simp
    · simp only [hpx, if_false]
      have hstep : lookupA (cacheMergeStep init p) x = lookupA init x := by
        rw [lookupA_cacheMergeStep, if_neg (fun h => hpx h.symm)]
      cases hlt : lookupA t x with
      | some r => simp [hstep]
      | none => simp [hstep]

/-- Claim C2 as stated is false: a discovered record of the selected
source that shares its uuid with a cached entry of a DIFFERENT source
shallow-merges over that entry, so the differing-source entry is not left
unchanged. Here a steam-sourced cache entry for uuid U is rewritten by an
epic refresh that discovers an epic-sourced record under the same U. -/
theorem update_helios_cache_frame_counterexample :
    getField ((lookupA
        [("U", [("source", JVal.str "steam"), ("hours", JVal.str "12")])]
        "U").getD []) "source" = some (JVal.str "steam") ∧
    lookupA (update_helios_cache
        [("U", [("source", JVal.str "steam"), ("hours", JVal.str "12")])]
        [("U", [("source", JVal.str "epic")])] "epic") "U" ≠
      lookupA [("U", [("source", JVal.str "steam"), ("hours", JVal.str "12")])]
        "U" := by
  constructor
  · rfl
  · decide

/-- Claim C2 (amended): for a per-source refresh, exactly the prior cache
entries of the selected source are removed, exactly the discovered records
of the selected source are inserted (shallow-merged over the surviving
cached fields for their uuid), and every cache entry of a different source
whose uuid is NOT among the inserted records is left unchanged; an
inserted record sharing its uuid with a differing-source entry merges over
it instead. -/
theorem update_helios_cache_selective (cache libraries : List (String × Record))
    (sel : String) (hsel : sel = "steam" ∨ sel = "nonsteam" ∨ sel = "epic")
    (hc : (keysOf cache).Nodup) (hl : (keysOf libraries).Nodup) :
    (∀ u r, lookupA cache u = some r →
      getField r "source" ≠ some (JVal.str sel) →
      lookupA (appsToInclude libraries sel) u = none →
      lookupA (update_helios_cache cache libraries sel) u = some r) ∧
    (∀ u r, lookupA cache u = some r →
      getField r "source" = some (JVal.str sel) →
      lookupA (appsToInclude libraries sel) u = none →
      lookupA (update_helios_cache cache libraries sel) u = none) ∧
    (∀ u r, lookupA (appsToInclude libraries sel) u = some r →
      lookupA cache u = none →
      lookupA (update_helios_cache cache libraries sel) u =
        some (mergeRecords [] r)) ∧
    (∀ u r rc, lookupA (appsToInclude libraries sel) u = some r →
      lookupA cache u = some rc →
      getField rc "source" ≠ some (JVal.str sel) →
      lookupA (update_helios_cache cache libraries sel) u =
        some (mergeRecords rc r)) ∧
    (∀ u r rc, lookupA (appsToInclude libraries sel) u = some r →
      lookupA cache u = some rc →
      getField rc "source" = some (JVal.str sel) →
      lookupA (update_helios_cache cache libraries sel) u =
        some (mergeRecords [] r)) ∧
    (∀ u, lookupA cache u = none →
      lookupA (appsToInclude libraries sel) u = none →
      lookupA (update_helios_cache cache libraries sel) u = none) := by
  have hall : sel ≠ "all" := by
    rcases hsel with h | h | h <;> subst h <;> decide
  have hincl : (keysOf (appsToInclude libraries sel)).Nodup := by
    unfold appsToInclude
    rcases hsel with h | h | h <;> subst h <;>
      simp only [if_true, if_false, reduceIte] <;>
      exact (List.Sublist.map Prod.fst (List.filter_sublist _)).nodup hl
  have hprune : ∀ u,
      lookupA (cache.filter
        (fun p => !(getField p.2 "source" == some (JVal.str sel)))) u =
      match lookupA cache u with
      | some v =>
        if !(getField (u, v).2 "source" == some (JVal.str sel))
          then some v else none
      | none => none := by
    intro u
    rw [lookupA_filter cache _ hc u]
    cases lookupA cache u <;> rfl
  have hmain : ∀ u,
      lookupA (update_helios_cache cache libraries sel) u =
        match lookupA (appsToInclude libraries sel) u with
        | some r => some (mergeRecords
            ((lookupA (cache.filter
              (fun p => !(getField p.2 "source" == some (JVal.str sel)))) u).getD
              []) r)
        | none => lookupA (cache.filter
            (fun p => !(getField p.2 "source" == some (JVal.str sel)))) u := by
    intro u
    unfold update_helios_cache
    simp only [hall, if_false]
    rw [lookupA_foldl_cacheMergeStep _ _ hincl u]
  refine ⟨?_, ?_, ?_, ?_, ?_, ?_⟩
  · intro u r hcu hsrc hlu
    rw [hmain u, hlu, hprune u, hcu]
    simp [beq_eq_false_iff_ne.2 hsrc]
  · intro u r hcu hsrc hlu
    rw [hmain u, hlu, hprune u, hcu]
    simp [hsrc]
  · intro u r hlu hcu
    rw [hmain u, hlu, hprune u, hcu]
    rfl
  · intro u r rc hlu hcu hsrc
    rw [hmain u, hlu, hprune u, hcu]
    simp [beq_eq_false_iff_ne.2 hsrc]
  · intro u r rc hlu hcu hsrc
    rw [hmain u, hlu, hprune u, hcu]
    simp [hsrc]
  · intro u hcu hlu
    rw [hmain u, hlu, hprune u, hcu]

/-- Concrete instance of the amended C2 theorem, which is also the spec
scenario: a cache seeded with one steam and one epic entry, refreshed with
selection epic against an empty discovery set, keeps the steam entry
unchanged and drops the epic entry. -/
theorem update_helios_cache_selective_witness :
    lookupA (update_helios_cache
        [("S", [("source", JVal.str "steam"), ("name", JVal.str "Portal")]),
         ("E", [("source", JVal.str "epic")])] [] "epic") "S" =
      some [("source", JVal.str "steam"), ("name", JVal.str "Portal")] ∧
    lookupA (update_helios_cache
        [("S", [("source", JVal.str "steam"), ("name", JVal.str "Portal")]),
         ("E", [("source", JVal.str "epic")])] [] "epic") "E" = none :=
  ⟨(update_helios_cache_selective
      [("S", [("source", JVal.str "steam"), ("name", JVal.str "Portal")]),
       ("E", [("source", JVal.str "epic")])] [] "epic"
      (Or.inr (Or.inr rfl)) (by decide) (by decide)).1 "S"
      [("source", JVal.str "steam"), ("name", JVal.str "Portal")]
      rfl (by decide) rfl,
   (update_helios_cache_selective
      [("S", [("source", JVal.str "steam"), ("name", JVal.str "Portal")]),
       ("E", [("source", JVal.str "epic")])] [] "epic"
      (Or.inr (Or.inr rfl)) (by decide) (by decide)).2.1 "E"
      [("source", JVal.str "epic")] rfl (by decide) rfl⟩

/-!
## Listing and sorting (src/helios.py, sort_apps lines 1033-1066 and
list_apps lines 444-536)

sort_apps returns a list for a falsy sort key and for the keys name,
source, uuid and managed; any other key falls off the end of the function
and returns None. list_apps then computes column widths by iterating the
sort result, which raises a TypeError on None before anything is printed;
the embedding returns none for that crash and some lines otherwise.
Optional fields that Python stores as None are embedded as absent keys
(this can only change the literal text of a rendered cell, never which
lines exist).
-/

/-- a.get(k, d) for string-valued fields. -/
def getStrD (r : Record) (k d : String) : String :=
  match getField r k with
  | some (JVal.str s) => s
  | _ => d

/-- a.get("managed_by_helios", False); the orchestrator always stores a
JSON boolean in this field. -/
def getBoolD (r : Record) (k : String) : Bool :=
  match getField r k with
  | some (JVal.bool b) => b
  | _ => false

/-- a.get("uuid") or a.get("appID") or "" with Python falsiness (absent or
empty string falls through). -/
def uuidOrAppId (r : Record) : String :=
  if getStrD r "uuid" "" ≠ "" then getStrD r "uuid" ""
  else getStrD r "appID" ""

/-- Python truthiness of an optional string (None and "" are falsy). -/
def pyFalsyOptStr (o : Option String) : Bool :=
  match o with
  | none => true
  | some s => s = ""

/-- Embedding of sort_apps: a falsy key keeps dict order, the four
supported keys sort stably (Python sorted is stable; reverse=True for
managed sorts descending), anything else returns None. -/
def sort_apps (apps : List (String × Record)) (sort_key : Option String) :
    Option (List Record) :=
  if pyFalsyOptStr sort_key then some (apps.map Prod.snd)
  else
    let k := sort_key.getD ""
    if k = "name" then
      some ((apps.map Prod.snd).mergeSort
        (fun a b => decide (pyLower (getStrD a "name" "") ≤ pyLower (getStrD b "name" ""))))
    else if k = "source" then
      some ((apps.map Prod.snd).mergeSort
        (fun a b => decide (pyLower (getStrD a "source" "") ≤ pyLower (getStrD b "source" ""))))
    else if k = "uuid" then
      some ((apps.map Prod.snd).mergeSort
        (fun a b => decide (pyLower (uuidOrAppId a) ≤ pyLower (uuidOrAppId b))))
    else if k = "managed" then
      some ((apps.map Prod.snd).mergeSort
        (fun a b => decide (getBoolD b "managed_by_helios" ≤ getBoolD a "managed_by_helios")))
    else
      none

/-- Left-justified space padding, f-string style (never truncates). -/
def padRight (s : String) (w : Nat) : String :=
  s ++ String.mk (List.replicate (w - s.length) ' ')

/-- str.title() for the ASCII text the tool renders: a letter is
uppercased after a non-letter and lowercased after a letter. -/
def pyTitle (s : String) : String :=
  String.mk (s.toList.foldl
    (fun (acc : List Char × Bool) c =>
      let cased := c.isAlpha
      let c2 := if cased then (if acc.2 then c.toLower else c.toUpper) else c
      (acc.1 ++ [c2], cased)) ([], false)).1

/-- Maximum of a list of lengths; the callers only evaluate this on a
nonempty list, where Python max agrees with this fold. -/
def natListMax (l : List Nat) : Nat :=
  l.foldl max 0

/-- Embedding of list_apps as the list of printed lines: none models the
TypeError raised while computing column widths when sort_apps returned
None, before any line is printed. -/
def list_apps (libraries : List (String × Record)) (sort_key : Option String)
    (managed_only show_type show_index show_managed : Bool) :
    Option (List String) :=
  let apps :=
    if managed_only then
      libraries.filter (fun p => getBoolD p.2 "managed_by_helios")
    else libraries
  if apps.isEmpty then some ["No apps to display."]
  else
    match sort_apps apps sort_key with
    | none => none
    | some sorted_apps =>
      let name_width :=
        max (natListMax (sorted_apps.map (fun a => (getStrD a "name" "").length))) 20
      let source_width :=
        max (natListMax (sorted_apps.map (fun a => (getStrD a "source" "").length))) 8
      let uuid_width :=
        max (natListMax (sorted_apps.map (fun a => (uuidOrAppId a).length))) 36
      let type_width :=
        if show_type then
          max (natListMax (sorted_apps.map (fun a => (getStrD a "type" "").length))) 6
        else 0
      let option_width :=
        if show_index then max (toString sorted_apps.length).length 6 else 0
      let managed_width :=
        if show_managed then
          max "Managed".length
            (natListMax (sorted_apps.map
              (fun a => if getBoolD a "managed_by_helios" then 3 else 2)))
        else 0
      let header_parts :=
        (if show_index then [padRight "Option" option_width] else []) ++
        [padRight "Name" name_width, padRight "Source" source_width] ++
        (if show_type then [padRight "Type" type_width] else []) ++
        (if show_managed then [padRight "Managed" managed_width] else []) ++
        [padRight "Helios ID (UUID)" uuid_width]
      let header := String.intercalate " | " header_parts
      let rows := (List.enumFrom 1 sorted_apps).map (fun ai =>
        let a := ai.2
        let row_parts :=
          (if show_index then [padRight (toString ai.1) option_width] else []) ++
          [padRight (getStrD a "name" "") name_width,
           padRight (pyTitle (getStrD a "source" "")) source_width] ++
          (if show_type then [padRight (pyTitle (getStrD a "type" "")) type_width]
            else []) ++
          (if show_managed then
            [padRight (if getBoolD a "managed_by_helios" then "Yes" else "No")
              managed_width]
            else []) ++
          [padRight (uuidOrAppId a) uuid_width]
        String.intercalate " | " row_parts)
      some (header :: String.mk (List.replicate header.length '-') :: rows)

/-- Claim C10: sort_apps returns a list for an unset/empty key and the
keys name, source, uuid and managed, and returns None for every other
non-empty key, so list rendering with an unsupported sort value fails
before printing any row instead of falling back to unsorted output. -/
theorem sort_apps_totality (apps : List (String × Record)) (k : String)
    (hk : k ≠ "" ∧ k ≠ "name" ∧ k ≠ "source" ∧ k ≠ "uuid" ∧ k ≠ "managed")
    (hne : apps ≠ []) :
    (sort_apps apps none).isSome ∧
    (sort_apps apps (some "")).isSome ∧
    (sort_apps apps (some "name")).isSome ∧
    (sort_apps apps (some "source")).isSome ∧
    (sort_apps apps (some "uuid")).isSome ∧
    (sort_apps apps (some "managed")).isSome ∧
    sort_apps apps (some k) = none ∧
    list_apps apps (some k) false true false true = none := by
  obtain ⟨h0, h1, h2, h3, h4⟩ := hk
  have hsort : sort_apps apps (some k) = none := by
    unfold sort_apps
    simp [pyFalsyOptStr, h0, h1, h2, h3, h4]
  refine ⟨?_, ?_, ?_, ?_, ?_, ?_, hsort, ?_⟩
  · simp [sort_apps, pyFalsyOptStr]
  · simp [sort_apps, pyFalsyOptStr]
  · simp [sort_apps, pyFalsyOptStr]
  · simp [sort_apps, pyFalsyOptStr]
  · simp [sort_apps, pyFalsyOptStr]
  · simp [sort_apps, pyFalsyOptStr]
  · unfold list_apps
    simp only [Bool.false_eq_true, if_false]
    rw [if_neg (by simpa using hne), hsort]

/-- Concrete instance of the C10 theorem at the unsupported key appID. -/
theorem sort_apps_totality_witness :
    (sort_apps [("U", [("name", JVal.str "Portal")])] none).isSome ∧
    (sort_apps [("U", [("name", JVal.str "Portal")])] (some "")).isSome ∧
    (sort_apps [("U", [("name", JVal.str "Portal")])] (some "name")).isSome ∧
    (sort_apps [("U", [("name", JVal.str "Portal")])] (some "source")).isSome ∧
    (sort_apps [("U", [("name", JVal.str "Portal")])] (some "uuid")).isSome ∧
    (sort_apps [("U", [("name", JVal.str "Portal")])] (some "managed")).isSome ∧
    sort_apps [("U", [("name", JVal.str "Portal")])] (some "appID") = none ∧
    list_apps [("U", [("name", JVal.str "Portal")])] (some "appID")
      false true false true = none :=
  sort_apps_totality [("U", [("name", JVal.str "Portal")])] "appID"
    (by refine ⟨?_, ?_, ?_, ?_, ?_⟩ <;> decide) (by decide)

/-!
## Install discovery and orchestrator resolution
(src/apollo/apollo.py lines 108-184 and src/helios.py get_apollo_apps,
lines 184-207)

find_apollo_install scans the two HKLM uninstall hives in order, keeping
every entry whose DisplayName matches an Apollo-fork alias and whose
InstallLocation holds Config/apps.json. The registry content and the
is_file probe are oracle inputs. get_apollo_apps then walks the returned
list assigning root on every iteration, i.e. keeps the LAST install, and
opens root/Config/apps.json; it exits when no install was found.
-/

/-- One uninstall-registry subkey: the two values the scan reads; none
models a QueryValueEx that raises OSError. -/
structure RegEntry where
  displayName : Option String
  installLocation : Option String
deriving DecidableEq, Repr

/-- One uninstall hive: whether OpenKey succeeds and its subkeys. -/
structure RegBase where
  present : Bool
  entries : List RegEntry
deriving DecidableEq, Repr

/-- The two registry locations find_apollo_install scans, in order. -/
structure RegistryHKLM where
  uninstallNative : RegBase
  uninstallWow64 : RegBase
deriving DecidableEq, Repr

/-- KNOWN_APOLLO_FORKS, in dict order. -/
def KNOWN_APOLLO_FORKS : List (String × List String) :=
  [("Apollo", ["apollo", "vibepollo"]), ("Sunshine", ["sunshine"])]

/-- Substring test on character lists (Python in on str). -/
def listIsInfixOf (needle hay : List Char) : Bool :=
  match hay with
  | [] => needle.isEmpty
  | _ :: t => needle.isPrefixOf hay || listIsInfixOf needle t

/-- displayname_matches_apollo: first fork (in dict order) one of whose
aliases occurs in the lowercased display name. -/
def displayname_matches_apollo (display_name : String) : Option String :=
  if display_name = "" then none
  else
    KNOWN_APOLLO_FORKS.findSome? (fun fm =>
      if fm.2.any (fun al => listIsInfixOf al.toList (pyLower display_name).toList)
        then some fm.1 else none)

/-- One detected install, as the dict find_apollo_install builds. -/
structure ApolloInstall where
  name : String
  display_name : String
  root : String
  apps_json : String
deriving DecidableEq, Repr

/-- The scan of one uninstall hive: skip entries with a missing value, a
non-matching display name, an empty install location, or no
Config/apps.json under the root (the is_file probe is the oracle
appsJsonIsFile, applied to the root). -/
def scanUninstallBase (appsJsonIsFile : String → Bool) (base : RegBase) :
    List ApolloInstall :=
  if base.present then
    base.entries.filterMap (fun e =>
      match e.displayName, e.installLocation with
      | some dn, some loc =>
        match displayname_matches_apollo dn with
        | some fork =>
          if loc = "" then none
          else if appsJsonIsFile loc then
            some ⟨fork, pyTrim dn, loc, loc ++ "/Config/apps.json"⟩
          else none
        | none => none
      | _, _ => none)
  else []

/-- find_apollo_install: both hives in order, results appended. -/
def find_apollo_install (reg : RegistryHKLM) (appsJsonIsFile : String → Bool) :
    List ApolloInstall :=
  scanUninstallBase appsJsonIsFile reg.uninstallNative ++
    scanUninstallBase appsJsonIsFile reg.uninstallWow64

/-- get_apollo_apps (src/helios.py lines 184-207) reduced to which root it
resolves and which apps.json it opens: the loop overwrites root with every
install, keeping the last; none models the sys.exit(1) when nothing is
found. -/
def get_apollo_apps_resolution (installs : List ApolloInstall) :
    Option (String × String) :=
  match installs.foldl (fun _ i => some i.root) none with
  | none => none
  | some root =>
    if root = "" then none else some (root, root ++ "/Config/apps.json")

theorem foldl_pick_last {α β : Type} (f : α → β) (l : List α) (init : Option β) :
    l.foldl (fun _ i => some (f i)) init =
      match l.getLast? with
      | some a => some (f a)
      | none => init := by
  induction l generalizing init with
  | nil => simp
  | cons a t ih =>
    rw [List.foldl_cons, ih]
    cases t with
    | nil => simp
    | cons b u =>
      rw [List.getLast?_cons_cons]
      cases hbu : (b :: u).getLast? with
      | none => simp at hbu
      | some c => rfl

theorem scan_root_ne_empty (appsJsonIsFile : String → Bool) (base : RegBase) :
    ∀ i ∈ scanUninstallBase appsJsonIsFile base, i.root ≠ "" := by
  intro i hi
  unfold scanUninstallBase at hi
  by_cases hp : base.present
  · simp only [hp, if_true] at hi
    rcases List.mem_filterMap.1 hi with ⟨e, -, hf⟩
    rcases e with ⟨dn, loc⟩
    cases dn with
    | none => simp at hf
    | some dn =>
      cases loc with
      | none => simp at hf
      | some loc =>
        simp only at hf
        split at hf
        · split at hf
          · exact Option.noConfusion hf
          · split at hf
            · rename_i hloc hfs
              cases hf
              exact hloc
            · exact Option.noConfusion hf
        · exact Option.noConfusion hf
  · simp only [hp, Bool.false_eq_true, if_false] at hi
    exact absurd hi (List.not_mem_nil i)

/-- Claim C1 as stated is false: with an Apollo install and a Sunshine
install both detected (in that order), the orchestrator resolves the
Sunshine root — the LAST detected install — not the preferred Apollo one,
and opens the Sunshine catalog. -/
theorem get_apollo_apps_prefers_apollo_counterexample :
    (find_apollo_install
        ⟨⟨true, [⟨some "Apollo v2", some "C:/Apollo"⟩,
                 ⟨some "Sunshine", some "C:/Sunshine"⟩]⟩, ⟨true, []⟩⟩
        (fun s => s == "C:/Apollo" || s == "C:/Sunshine")).map ApolloInstall.name =
      ["Apollo", "Sunshine"] ∧
    get_apollo_apps_resolution (find_apollo_install
        ⟨⟨true, [⟨some "Apollo v2", some "C:/Apollo"⟩,
                 ⟨some "Sunshine", some "C:/Sunshine"⟩]⟩, ⟨true, []⟩⟩
        (fun s => s == "C:/Apollo" || s == "C:/Sunshine")) =
      some ("C:/Sunshine", "C:/Sunshine/Config/apps.json") ∧
    ("C:/Sunshine" : String) ≠ "C:/Apollo" := by
  refine ⟨by decide, by decide, by decide⟩

/-- Claim C1 (amended): the orchestrator resolves the active install as
the LAST install in the detected list, whatever its fork, opens that
root's Config/apps.json, and exits with an error when no install was
detected. -/
theorem get_apollo_apps_uses_last_install (reg : RegistryHKLM)
    (appsJsonIsFile : String → Bool) :
    get_apollo_apps_resolution (find_apollo_install reg appsJsonIsFile) =
      (find_apollo_install reg appsJsonIsFile).getLast?.map
        (fun i => (i.root, i.root ++ "/Config/apps.json")) := by
  unfold get_apollo_apps_resolution
  rw [foldl_pick_last (fun i : ApolloInstall => i.root)]
  cases hl : (find_apollo_install reg appsJsonIsFile).getLast? with
  | none => rfl
  | some i =>
    have hmem : i ∈ find_apollo_install reg appsJsonIsFile := by
      obtain ⟨hne, heq⟩ := List.mem_getLast?_eq_getLast (by rw [hl]; rfl)
      subst heq
      exact List.getLast_mem hne
    have hroot : i.root ≠ "" := by
      rcases List.mem_append.1 hmem with h | h
      · exact scan_root_ne_empty appsJsonIsFile reg.uninstallNative i h
      · exact scan_root_ne_empty appsJsonIsFile reg.uninstallWow64 i h
    simp [hroot]

/-!
## Cover saving and reconciliation
(src/helios.py, save_library_capsule lines 720-799 and
verify_managed_covers lines 588-718; ApolloAppsJSON.get_image_path,
src/apollo/apollo.py lines 83-105)

The filesystem, the network and the image library are modeled as boolean
oracles in SaveEnv: whether the destination file exists and decodes as a
PNG, whether an HTTP fetch plus decode succeeds, whether a local open
succeeds, whether the RGBA conversion and the final write succeed, which
paths exist, and which paths are absolute. URL scheme detection is by the
http:// and https:// (and file://) prefixes of the lowercased string, as
the code's urlparse check behaves on the values that reach it.
-/

/-- Prefix test written on character lists so it evaluates by rfl. -/
def strStartsWith (s pre : String) : Bool :=
  pre.toList.isPrefixOf s.toList

/-- parsed.scheme in ("http", "https") on the strings the tool handles. -/
def isHttpUrl (s : String) : Bool :=
  strStartsWith (pyLower s) "http://" || strStartsWith (pyLower s) "https://"

/-- Oracle outcomes for one save_library_capsule call. -/
structure SaveEnv where
  destExists : Bool
  destOpenOk : Bool
  destIsPNG : Bool
  fetchOk : Bool
  fileUrlOpenOk : Bool
  pathExists : String → Bool
  localOpenOk : Bool
  srcIsPNG : Bool
  convertOk : Bool
  saveOk : Bool
  isAbs : String → Bool

/-- Result of a save_library_capsule call: the returned value and whether
the destination file exists after the call. -/
structure SaveOutcome where
  result : Option String
  destOnDisk : Bool
deriving DecidableEq, Repr

/-- The destination path covers_dir/<uuid>.png. -/
def coverDest (uuid : String) : String :=
  "LOCALAPPDATA/Helios/covers/" ++ uuid ++ ".png"

/-- Resolution of a local source path against the Apollo root (lines
778-780): join when relative and a root is configured. -/
def resolveLocalSource (s : String) (apollo_root : Option String)
    (isAbs : String → Bool) : String :=
  if !(isAbs s) then
    match apollo_root with
    | some r => r ++ "/" ++ s
    | none => s
  else s

/-- The image load-convert-write tail of the try block (lines 787-792):
a non-PNG image is converted to RGBA first; the except handler (lines
794-799) deletes any partial destination file and returns None. -/
def saveConvertWrite (uuid : String) (env : SaveEnv) : SaveOutcome :=
  if !env.srcIsPNG && !env.convertOk then ⟨none, false⟩
  else if env.saveOk then ⟨some (coverDest uuid), true⟩
  else ⟨none, false⟩

/-- The try block of save_library_capsule (lines 764-799): classify the
source as HTTP(S), file:// URL, or local path (resolved against the
Apollo root when relative, and required to exist). The destination does
not exist when this runs — the pre-check already removed any invalid
file. -/
def saveFetchDecodeWrite (uuid s : String) (apollo_root : Option String)
    (env : SaveEnv) : SaveOutcome :=
  if isHttpUrl s then
    if env.fetchOk then saveConvertWrite uuid env else ⟨none, false⟩
  else if strStartsWith (pyLower s) "file://" then
    if env.fileUrlOpenOk then saveConvertWrite uuid env else ⟨none, false⟩
  else
    if !(env.pathExists (resolveLocalSource s apollo_root env.isAbs)) then
      ⟨none, false⟩
    else if env.localOpenOk then saveConvertWrite uuid env else ⟨none, false⟩

/-- save_library_capsule (lines 720-799): reject a missing or blank
source, return an existing valid PNG destination immediately, unlink an
invalid one, then fetch/decode/convert/write. -/
def save_library_capsule (uuid : String) (url_or_path : Option String)
    (apollo_root : Option String) (env : SaveEnv) : SaveOutcome :=
  match url_or_path with
  | none => ⟨none, env.destExists⟩
  | some s =>
    if pyTrim s = "" then ⟨none, env.destExists⟩
    else if env.destExists then
      if env.destOpenOk then
        if env.destIsPNG then ⟨some (coverDest uuid), true⟩
        else saveFetchDecodeWrite uuid s apollo_root env
      else saveFetchDecodeWrite uuid s apollo_root env
    else saveFetchDecodeWrite uuid s apollo_root env

/-- A failure during fetch, decode, or save, for a call that reaches the
try block: the fetch or open of the source fails, the local source is
missing, the conversion of a non-PNG image fails, or the final write
fails. -/
def saveAttemptFails (s : String) (apollo_root : Option String)
    (env : SaveEnv) : Bool :=
  (if isHttpUrl s then !env.fetchOk
   else if strStartsWith (pyLower s) "file://" then !env.fileUrlOpenOk
   else !(env.pathExists (resolveLocalSource s apollo_root env.isAbs)) ||
     !env.localOpenOk) ||
  (!env.srcIsPNG && !env.convertOk) || !env.saveOk

theorem saveConvertWrite_failure (uuid : String) (env : SaveEnv)
    (h : ((!env.srcIsPNG && !env.convertOk) || !env.saveOk) = true) :
    saveConvertWrite uuid env = ⟨none, false⟩ := by
  unfold saveConvertWrite
  rcases Bool.or_eq_true_iff.1 h with hc | hs
  · rw [if_pos hc]
  · by_cases hc : (!env.srcIsPNG && !env.convertOk) = true
    · rw [if_pos hc]
    · rw [if_neg hc, if_neg (by simpa using hs)]

theorem saveFetchDecodeWrite_failure (uuid s : String)
    (apollo_root : Option String) (env : SaveEnv)
    (hfail : saveAttemptFails s apollo_root env = true) :
    saveFetchDecodeWrite uuid s apollo_root env = ⟨none, false⟩ := by
  unfold saveFetchDecodeWrite
  unfold saveAttemptFails at hfail
  by_cases h1 : isHttpUrl s = true
  · rw [if_pos h1]
    rw [if_pos h1] at hfail
    by_cases hf : env.fetchOk
    · rw [if_pos hf]
      apply saveConvertWrite_failure
      simpa [hf] using hfail
    · rw [if_neg hf]
  · rw [if_neg h1]
    rw [if_neg h1] at hfail
    by_cases h2 : strStartsWith (pyLower s) "file://" = true
    · rw [if_pos h2]
      rw [if_pos h2] at hfail
      by_cases hf : env.fileUrlOpenOk
      · rw [if_pos hf]
        apply saveConvertWrite_failure
        simpa [hf] using hfail
      · rw [if_neg hf]
    · rw [if_neg h2]
      rw [if_neg h2] at hfail
      by_cases hex : env.pathExists (resolveLocalSource s apollo_root env.isAbs) = true
      · rw [if_neg (by simp [hex])]
        by_cases hl : env.localOpenOk
        · rw [if_pos hl]
          apply saveConvertWrite_failure
          simpa [hex, hl] using hfail
        · rw [if_neg hl]
      · rw [if_pos (by simpa using hex)]

/-- Claim C6: whenever a failure occurs during fetch, decode, or save in a
save-cover call that reaches the fetch phase, the call returns no result
and the destination file does not exist afterwards (any partial file is
deleted). -/
theorem save_library_capsule_failure_cleanup (uuid s : String)
    (apollo_root : Option String) (env : SaveEnv)
    (hs : ¬(pyTrim s = ""))
    (hearly : ¬(env.destExists = true ∧ env.destOpenOk = true ∧
      env.destIsPNG = true))
    (hfail : saveAttemptFails s apollo_root env = true) :
    (save_library_capsule uuid (some s) apollo_root env).result = none ∧
    (save_library_capsule uuid (some s) apollo_root env).destOnDisk = false := by
  have hmain : save_library_capsule uuid (some s) apollo_root env =
      saveFetchDecodeWrite uuid s apollo_root env := by
    simp only [save_library_capsule]
    rw [if_neg hs]
    by_cases hde : env.destExists
    · rw [if_pos hde]
      by_cases hdo : env.destOpenOk
      · rw [if_pos hdo]
        have hdp : ¬(env.destIsPNG = true) := fun h => hearly ⟨hde, hdo, h⟩
        rw [if_neg hdp]
      · rw [if_neg hdo]
    · rw [if_neg hde]
  rw [hmain, saveFetchDecodeWrite_failure uuid s apollo_root env hfail]
  exact ⟨rfl, rfl⟩

/-- Concrete instance of the C6 theorem: a relative local source that
resolves to an existing file, loads, but whose final write fails. -/
theorem save_library_capsule_failure_cleanup_witness :
    (save_library_capsule "U" (some "imgs/u.jpg") (some "C:/Apollo")
      ⟨false, false, false, false, false,
        (fun p => p == "C:/Apollo/imgs/u.jpg"), true, false, true, false,
        (fun _ => false)⟩).result = none ∧
    (save_library_capsule "U" (some "imgs/u.jpg") (some "C:/Apollo")
      ⟨false, false, false, false, false,
        (fun p => p == "C:/Apollo/imgs/u.jpg"), true, false, true, false,
        (fun _ => false)⟩).destOnDisk = false :=
  save_library_capsule_failure_cleanup "U" "imgs/u.jpg" (some "C:/Apollo")
    ⟨false, false, false, false, false,
      (fun p => p == "C:/Apollo/imgs/u.jpg"), true, false, true, false,
      (fun _ => false)⟩
    (by decide) (by simp) (by decide)

/-- ApolloAppsJSON.get_image_path (src/apollo/apollo.py lines 83-105):
absolute image paths are returned as-is, relative ones resolve against
root/assets, and a missing entry, missing field or empty string gives
None. -/
def get_image_path (s : CatalogState) (root : Option String)
    (isAbs : String → Bool) (u : String) : Option String :=
  match lookupA s.by_uuid u with
  | none => none
  | some app =>
    match getField app "image-path" with
    | some (JVal.str p) =>
      if p = "" then none
      else if isAbs p then some p
      else
        match root with
        | some r => some (r ++ "/assets/" ++ p)
        | none => some p
    | _ => none

/-- Outcome of the per-uuid body of verify_managed_covers. -/
inductive CoverStepResult where
  | skipped
  | noApp
  | noCatalogEntry
  | failed
  | restored (saved : String)
deriving DecidableEq, Repr

/-- The loop body of verify_managed_covers for one managed uuid
(src/helios.py lines 623-698): skip an existing valid PNG; prefer the
discovered record's library_capsule (URL as-is, local path resolved
against the host root); else fall back to the catalog's image-path; check
the chosen value is a URL or an existing file; then call
save_library_capsule — with image_source, the capsule value, as the code
does, not with the validated image_path. -/
def verify_cover_step (app? : Option Record) (apollo : CatalogState)
    (root : Option String) (uuid : String) (env : SaveEnv) :
    CoverStepResult :=
  if env.destExists && env.destOpenOk && env.destIsPNG then
    CoverStepResult.skipped
  else
    match app? with
    | none => CoverStepResult.noApp
    | some app =>
      if app.isEmpty then CoverStepResult.noApp
      else
        match lookupA apollo.by_uuid uuid with
        | none => CoverStepResult.noCatalogEntry
        | some _ =>
          let image_source : Option String :=
            match getField app "library_capsule" with
            | some (JVal.str s) => some s
            | _ => none
          let image_path : Option String :=
            match image_source with
            | some src =>
              if src = "" then none
              else if isHttpUrl src then some src
              else some (resolveLocalSource src root env.isAbs)
            | none => none
          let image_path2 : Option String :=
            match image_path with
            | some p => some p
            | none => get_image_path apollo root env.isAbs (getStrD app "uuid" "")
          let valid : Bool :=
            match image_path2 with
            | some p => isHttpUrl p || env.pathExists p
            | none => false
          if !valid then CoverStepResult.failed
          else
            match (save_library_capsule uuid image_source root env).result with
            | some saved => CoverStepResult.restored saved
            | none => CoverStepResult.failed

/-- The discovered record of the C5 scenario: managed, no
library_capsule. -/
def coverBugApp : Record :=
  [("uuid", JVal.str "U"), ("name", JVal.str "Game"),
   ("source", JVal.str "steam")]

/-- The catalog entry of the C5 scenario: its image-path is an absolute,
existing file. -/
def coverBugEntry : Record :=
  [("uuid", JVal.str "U"), ("name", JVal.str "Game"), ("cmd", JVal.str ""),
   ("image-path", JVal.str "C:/imgs/u.png")]

/-- The oracle of the C5 scenario: no cover on disk yet, the fallback file
exists and is absolute, and a save from it would succeed. -/
def coverBugEnv : SaveEnv :=
  ⟨false, false, false, false, false, (fun p => p == "C:/imgs/u.png"), true,
    true, true, true, (fun p => p == "C:/imgs/u.png")⟩

/-- Claim C5 names a code bug: for a managed uuid whose discovered record
has no library_capsule and whose catalog image-path resolves to an
existing absolute file, the code validates that fallback but then passes
image_source (the absent capsule) to save_library_capsule, which returns
None — so the cover is counted failed and never written, even though
saving from the resolved fallback path would have succeeded. -/
theorem verify_cover_fallback_ignored :
    get_image_path (catalogInit [coverBugEntry]) (some "C:/Apollo")
      coverBugEnv.isAbs "U" = some "C:/imgs/u.png" ∧
    coverBugEnv.pathExists "C:/imgs/u.png" = true ∧
    verify_cover_step (some coverBugApp) (catalogInit [coverBugEntry])
      (some "C:/Apollo") "U" coverBugEnv = CoverStepResult.failed ∧
    (save_library_capsule "U" (some "C:/imgs/u.png") (some "C:/Apollo")
      coverBugEnv).result = some (coverDest "U") := by
  refine ⟨by decide, by decide, by decide, by decide⟩

/-!
## Add-workflow results table
(src/helios.py, main lines 1301-1309 and print_apps_with_status lines
539-586)

main assembles apps_for_status = [all_libraries.get(uuid) for uuid in
status_map if all_libraries.get(uuid)] and passes it with status_map to
print_apps_with_status, which keeps the apps whose uuid-or-appID key has a
truthy status and prints one row per kept app. The embedding computes the
list of id strings the table displays. The uuid and appID fields are
strings wherever the discovery code writes them.
-/

/-- a.get(k) restricted to a truthy string (Python or falls through on
None and ""). -/
def truthyStrField (a : Record) (k : String) : Option String :=
  match getField a k with
  | some (JVal.str s) => if s = "" then none else some s
  | _ => none

/-- app.get("uuid") or app.get("appID"): first truthy value. -/
def rowKeyOpt (a : Record) : Option String :=
  match truthyStrField a "uuid" with
  | some s => some s
  | none => truthyStrField a "appID"

/-- status_map.get(app.get("uuid") or app.get("appID")). -/
def statusOf (status_map : List (String × String)) (a : Record) :
    Option String :=
  match rowKeyOpt a with
  | some k => lookupA status_map k
  | none => none

/-- The apps_for_status list main builds (lines 1304-1308): the uuids of
status_map, in order, resolved in the unified map, dropping falsy
results. -/
def apps_for_status (all_libraries : List (String × Record))
    (status_map : List (String × String)) : List Record :=
  (status_map.map Prod.fst).filterMap (fun u =>
    match lookupA all_libraries u with
    | some r => if r.isEmpty then none else some r
    | none => none)

/-- The filter of print_apps_with_status (lines 548-551): keep apps whose
status is truthy. -/
def apps_with_status (apps : List Record)
    (status_map : List (String × String)) : List Record :=
  apps.filter (fun a =>
    match statusOf status_map a with
    | some st => !(st = "")
    | none => false)

/-- The id column printed for one row (line 578): app.get("uuid") or
app.get("appID") or "". -/
def displayedId (a : Record) : String :=
  (rowKeyOpt a).getD ""

/-- The ids the consolidated add-results table displays, in order. -/
def addResultsCoveredIds (all_libraries : List (String × Record))
    (status_map : List (String × String)) : List String :=
  (apps_with_status (apps_for_status all_libraries status_map)
    status_map).map displayedId

theorem lookupA_mem {α : Type} (l : List (String × α)) (k : String) (v : α)
    (h : lookupA l k = some v) : (k, v) ∈ l := by
  unfold lookupA at h
  cases hf : l.find? (fun p => p.1 == k) with
  | none => rw [hf] at h; exact Option.noConfusion h
  | some pr =>
    rw [hf] at h
    have hbeq := List.find?_some hf
    have hk : pr.1 = k := beq_iff_eq.1 hbeq
    have hv : pr.2 = v := Option.some.inj h
    have hpr : pr = (k, v) := Prod.ext hk hv
    rw [← hpr]
    exact List.mem_of_find?_eq_some hf

/-- Claim C4 as stated is false: a uuid that received the status
"UUID not found" is, by construction, absent from the unified map, so main
drops it from apps_for_status and the table never covers it. Here X got
that status yet only Y is covered. -/
theorem add_results_table_counterexample :
    lookupA [("X", "UUID not found"),
             ("Y", "Added to Apollo and managed by Helios")] "X" =
      some "UUID not found" ∧
    addResultsCoveredIds
      [("Y", [("uuid", JVal.str "Y"), ("name", JVal.str "Game"),
              ("source", JVal.str "steam")])]
      [("X", "UUID not found"),
       ("Y", "Added to Apollo and managed by Helios")] = ["Y"] := by
  refine ⟨by decide, by decide⟩

/-- Claim C4 (amended): the consolidated results table covers exactly the
uuids that received a status message AND resolve in the unified app map,
in status order — so "already added" and "added" entries are covered,
while "UUID not found" entries (assigned precisely to uuids absent from
the map) are always omitted, as are apps without a status. -/
theorem add_results_table_covers (all_libraries : List (String × Record))
    (status_map : List (String × String))
    (hkeys : ∀ p ∈ all_libraries,
      getField p.2 "uuid" = some (JVal.str p.1) ∧ p.1 ≠ "")
    (hstat : ∀ q ∈ status_map, q.2 ≠ "") :
    addResultsCoveredIds all_libraries status_map =
      (status_map.map Prod.fst).filter
        (fun u => (lookupA all_libraries u).isSome) := by
  unfold addResultsCoveredIds apps_with_status apps_for_status
  rw [List.filter_filterMap, List.map_filterMap]
  have hfilter :
      (status_map.map Prod.fst).filter
          (fun u => (lookupA all_libraries u).isSome) =
        (status_map.map Prod.fst).filterMap
          (fun u => if (lookupA all_libraries u).isSome then some u
            else none) := by
    induction status_map.map Prod.fst with
    | nil => rfl
    | cons a t ih =>
      rw [List.filter_cons, List.filterMap_cons]
      by_cases h : (lookupA all_libraries a).isSome <;> simp [h, ih]
  rw [hfilter]
  apply List.filterMap_congr
  intro u hu
  rcases List.mem_map.1 hu with ⟨q, hq, hqu⟩
  cases hlu : lookupA all_libraries u with
  | none => simp
  | some r =>
    have hmemr := lookupA_mem all_libraries u r hlu
    obtain ⟨hfield, hne⟩ := hkeys (u, r) hmemr
    have hrne : ¬r.isEmpty := by
      intro h
      rw [List.isEmpty_iff] at h
      subst h
      simp [getField, lookupA] at hfield
    have hrow : rowKeyOpt r = some u := by
      unfold rowKeyOpt truthyStrField
      rw [hfield]
      simp [hne]
    have hsu : ∃ s, lookupA status_map u = some s := by
      rw [← Option.isSome_iff_exists, lookupA_isSome_iff_mem_keys]
      exact List.mem_map.2 ⟨q, hq, hqu⟩
    obtain ⟨s, hsu⟩ := hsu
    have hsne : s ≠ "" := hstat (u, s) (lookupA_mem status_map u s hsu)
    simp only [hrne, Bool.false_eq_true, if_false, Option.filter,
      Option.map, statusOf, hrow, hsu, displayedId]
    simp [hsne, hrow]

/-- Concrete instance of the amended C4 theorem: one added app and one
already-managed app both covered, in status order. -/
theorem add_results_table_covers_witness :
    addResultsCoveredIds
      [("A", [("uuid", JVal.str "A"), ("source", JVal.str "steam")]),
       ("B", [("uuid", JVal.str "B"), ("source", JVal.str "epic")])]
      [("B", "Already added to Apollo and managed by Helios"),
       ("A", "Added to Apollo and managed by Helios")] =
      ["B", "A"] := by
  rw [add_results_table_covers
    [("A", [("uuid", JVal.str "A"), ("source", JVal.str "steam")]),
     ("B", [("uuid", JVal.str "B"), ("source", JVal.str "epic")])]
    [("B", "Already added to Apollo and managed by Helios"),
     ("A", "Added to Apollo and managed by Helios")]
    (by decide) (by decide)]
  decide

end Helios
